import Mathlib

/-!
Verification of the todo-rs list model (src/lib.rs, src/main.rs).

The Rust source is shallowly embedded here:
* `TodoItemState`, `TodoItem`, `TodoListFileItem`, `TodoList` mirror the data
  model of src/lib.rs.
* Parsing (`impl FromStr for TodoItem` / `TodoItemState`, `list_from_str`),
  serialization (`as_markdown`), accessors (`get_item`, `get_item_mut`,
  `mark_item_done`), batch deletion (`delete_items`) and the display layer
  (`display_with_numbers`, `color_tags`, `render_tag`) are translated
  function by function.
* Rust `usize` arithmetic is modelled on `Nat` with explicit wrapping
  modulo `2 ^ 64` where the source subtracts (`item_number - 1`); this is
  the release-profile (overflow-checks off) semantics of the binary.
* Methods taking `&mut self` are modelled by explicit state passing: they
  return the post-state together with the `Result`, so that partial
  mutation before an error stays observable, exactly as through `&mut`.
* The `Display` implementations write ANSI escape sequences through the
  owo-colors crate; the escape strings are embedded as concrete constants.
-/

deriving instance DecidableEq for Except

namespace TodoRs

/-- Rust `TodoItemState` (src/lib.rs, lines 159-163). -/
inductive TodoItemState where
  | Done : TodoItemState
  | Initial : TodoItemState
deriving DecidableEq

/-- Rust `TodoItem` (src/lib.rs, lines 182-187). -/
structure TodoItem where
  name : String
  description : Option String
  state : TodoItemState
deriving DecidableEq

/-- Rust `TodoListFileItem` (src/lib.rs, lines 174-180): either a parsed
checklist item or an opaque passthrough line kept as a raw string. -/
inductive TodoListFileItem where
  | TodoItem (item : TodoItem) : TodoListFileItem
  | String (s : String) : TodoListFileItem
deriving DecidableEq

/-- Rust `TodoList` (src/lib.rs, lines 11-14). -/
structure TodoList where
  name : String
  list : List TodoListFileItem

/-- The distinguishable causes of a `TodoError::ParseError`.  Each
constructor corresponds to exactly one `format!` message in src/lib.rs:
* `noCheckboxPrefix`: "Item should start with the check box" (line 289)
* `noMark`: "No mark." (line 298)
* `noClosingBracket`: "No closing bracket." (line 305)
* `expectedClosingBracket`: "Expected rbracket" (line 310)
* `endedAfterBracket`: "Item ended unexpectedly. Space expected after rbracket."
  (line 313)
* `noSpaceAfterBracket`: "Space expected after rbracket." (line 318)
* `emptyName`: "Item name can not be empty." (line 322)
* `unsupportedState`: "This state of a todo item is not supported." (line 341)
-/
inductive ParseCause where
  | noCheckboxPrefix
  | noMark
  | noClosingBracket
  | expectedClosingBracket
  | endedAfterBracket
  | noSpaceAfterBracket
  | emptyName
  | unsupportedState
deriving DecidableEq

/-- Rust `TodoError` (src/lib.rs, lines 347-355).  `ParseError` carries the
cause and the string interpolated into the message after "Found:".
`FileIOError` wraps IO and is outside the pure model. -/
inductive TodoError where
  | ParseError (cause : ParseCause) (found : String) : TodoError
  | InvalidItemNumber (n : Nat) : TodoError
deriving DecidableEq

/-- `usize` modulus: the model works on `Nat` and wraps subtraction mod
`2 ^ 64` exactly where the Rust source computes `item_number - 1`. -/
def USIZE : Nat := 2 ^ 64

/-- Release-profile `usize` wrapping computation of `item_number - 1`
(src/lib.rs lines 92, 104). -/
def wrappingSubOne (n : Nat) : Nat := (n + (USIZE - 1)) % USIZE

/-- Rust `TodoItemState::as_markdown` (src/lib.rs, lines 166-171). -/
def TodoItemState.as_markdown : TodoItemState → String
  | .Done => "x"
  | .Initial => " "

/-- Rust `impl FromStr for TodoItemState` (src/lib.rs, lines 333-345). -/
def todoItemStateFromStr (s : String) : Except TodoError TodoItemState :=
  if s = "x" then .ok .Done
  else if s = " " then .ok .Initial
  else .error (.ParseError .unsupportedState s)

/-- Rust `TodoItem::mark_done` (src/lib.rs, lines 190-192). -/
def TodoItem.mark_done (t : TodoItem) : TodoItem := { t with state := .Done }

/-- Rust `TodoItem::is_done` (src/lib.rs, lines 194-196). -/
def TodoItem.is_done (t : TodoItem) : Bool := t.state = TodoItemState.Done

/-- Rust `impl FromStr for TodoItem` (src/lib.rs, lines 284-331), on the
character list of the line.  The source checks `starts_with("- [")` and
then `chars().skip(3)`; pattern matching on the three prefix characters is
the same test.  It then reads the mark, requires a closing bracket and a
single separating space, collects the rest as the name, rejects an empty
name, and finally parses the mark into a state (in that order). -/
def todoItemFromChars (s : List Char) : Except TodoError TodoItem :=
  match s with
  | '-' :: ' ' :: '[' :: rest =>
    match rest with
    | [] => .error (.ParseError .noMark (String.mk s))
    | mark :: rest1 =>
      match rest1 with
      | [] => .error (.ParseError .noClosingBracket (String.mk s))
      | c1 :: rest2 =>
        if c1 = ']' then
          match rest2 with
          | [] => .error (.ParseError .endedAfterBracket (String.mk s))
          | c2 :: rest3 =>
            if c2 = ' ' then
              if rest3 = [] then .error (.ParseError .emptyName (String.mk s))
              else
                match todoItemStateFromStr (String.mk [mark]) with
                | .ok st => .ok { name := String.mk rest3, description := none, state := st }
                | .error e => .error e
            else .error (.ParseError .noSpaceAfterBracket (String.mk s))
        else .error (.ParseError .expectedClosingBracket (String.mk s))
  | _ => .error (.ParseError .noCheckboxPrefix (String.mk s))

/-- Rust `line.parse::<TodoItem>()`. -/
def todoItemFromStr (s : String) : Except TodoError TodoItem :=
  todoItemFromChars s.data

/-- The `line.starts_with("- [")` test of `list_from_str`
(src/lib.rs, line 39). -/
def startsWithDashBracket : List Char → Bool
  | '-' :: ' ' :: '[' :: _ => true
  | _ => false

/-- Rust `str::split_inclusive` at the newline character, the first stage
of `str::lines` used by `list_from_str` (src/lib.rs, line 36). -/
def splitInclNl : List Char → List (List Char)
  | [] => []
  | c :: cs =>
    if c = '\n' then [c] :: splitInclNl cs
    else
      match splitInclNl cs with
      | [] => [[c]]
      | p :: ps => (c :: p) :: ps

/-- Strip one copy of the character `c` from the end of the list, when
present (Rust `str::strip_suffix`). -/
def stripSuffixChar (c : Char) (p : List Char) : Option (List Char) :=
  match p.reverse with
  | d :: rest => if d = c then some rest.reverse else none
  | [] => none

/-- The per-piece map of Rust `str::lines`: drop a trailing newline, and a
trailing carriage return only when a newline was dropped. -/
def linesMap (p : List Char) : List Char :=
  match stripSuffixChar '\n' p with
  | none => p
  | some q =>
    match stripSuffixChar '\r' q with
    | none => q
    | some r => r

/-- Rust `str::lines` as used by `list_from_str`. -/
def rustLines (s : String) : List String :=
  (splitInclNl s.data).map (fun p => String.mk (linesMap p))

/-- The per-line classification of `TodoList::list_from_str`
(src/lib.rs, lines 38-49): a line starting with "- [" that parses is a
`TodoItem` element; every other line is kept as a passthrough string. -/
def classifyLine (line : String) : TodoListFileItem :=
  if startsWithDashBracket line.data then
    match todoItemFromStr line with
    | .ok item => .TodoItem item
    | .error _ => .String line
  else .String line

/-- Rust `TodoList::list_from_str` (src/lib.rs, lines 34-51).  The Rust
function returns `Result` but never errs; the model returns the list. -/
def list_from_str (s : String) : List TodoListFileItem :=
  (rustLines s).map classifyLine

/-- Rust `Vec::<String>::join("\n")`, used by `as_markdown` (line 87)
and `display_with_numbers` (line 74): the pieces separated by single
newlines, with no leading or trailing separator. -/
def joinNl : List String → String
  | [] => ""
  | [a] => a
  | a :: rest => a ++ "\n" ++ joinNl rest

/-- The per-element serialization of `TodoList::as_markdown`
(src/lib.rs, lines 80-85). -/
def serializeElem : TodoListFileItem → String
  | .TodoItem i => "- [" ++ i.state.as_markdown ++ "] " ++ i.name
  | .String s => s

/-- Rust `TodoList::as_markdown` (src/lib.rs, lines 77-88). -/
def TodoList.as_markdown (l : TodoList) : String :=
  joinNl (l.list.map serializeElem)

/-- Rust `TodoList::get_item` (src/lib.rs, lines 102-113): raw index into
the full element sequence at `item_number - 1` (wrapping); a missing slot
or a passthrough slot is `InvalidItemNumber item_number`. -/
def TodoList.get_item (l : TodoList) (item_number : Nat) : Except TodoError TodoItem :=
  match l.list[wrappingSubOne item_number]? with
  | some (.TodoItem t) => .ok t
  | some (.String _) => .error (.InvalidItemNumber item_number)
  | none => .error (.InvalidItemNumber item_number)

/-- Rust `TodoList::get_item_mut` (src/lib.rs, lines 90-101).  The lookup
logic is character for character that of `get_item`; the mutable borrow it
returns is modelled by `mark_item_done` below. -/
def TodoList.get_item_mut (l : TodoList) (item_number : Nat) : Except TodoError TodoItem :=
  match l.list[wrappingSubOne item_number]? with
  | some (.TodoItem t) => .ok t
  | some (.String _) => .error (.InvalidItemNumber item_number)
  | none => .error (.InvalidItemNumber item_number)

/-- Rust `TodoList::mark_item_done` (src/lib.rs, lines 115-119):
`get_item_mut` then `mark_done` through the returned mutable reference.
The post-state is returned alongside the result. -/
def TodoList.mark_item_done (l : TodoList) (item_number : Nat) :
    TodoList × Except TodoError TodoItem :=
  match l.list[wrappingSubOne item_number]? with
  | some (.TodoItem t) =>
    ({ l with list := l.list.set (wrappingSubOne item_number) (.TodoItem t.mark_done) },
     .ok t.mark_done)
  | some (.String _) => (l, .error (.InvalidItemNumber item_number))
  | none => (l, .error (.InvalidItemNumber item_number))

/-- Insertion step of the descending sort. -/
def insertDesc (x : Nat) : List Nat → List Nat
  | [] => [x]
  | y :: ys => if y ≤ x then x :: y :: ys else y :: insertDesc x ys

/-- Rust `sorted_indices.sort_unstable_by(|a, b| b.cmp(a))`
(src/lib.rs, lines 131-132): sorts the indices in descending order.  On
`Nat` any correct descending sort is extensionally unique, so insertion
sort is a faithful model of the unstable sort. -/
def sortDesc : List Nat → List Nat
  | [] => []
  | x :: xs => insertDesc x (sortDesc xs)

/-- The loop of `TodoList::delete_items` (src/lib.rs, lines 134-143): for
every index (descending), if it is positive and at most the current length
then look the item up with `get_item`, record it and `Vec::remove` it;
otherwise stop with `InvalidItemNumber`.  The post-state is returned even
on error (the Rust method mutates through `&mut self`). -/
def deleteLoop (l : TodoList) (removed : List TodoItem) :
    List Nat → TodoList × Except TodoError (List TodoItem)
  | [] => (l, .ok removed)
  | index :: rest =>
    if 0 < index ∧ index ≤ l.list.length then
      match l.get_item index with
      | .ok t => deleteLoop { l with list := l.list.eraseIdx (index - 1) } (removed ++ [t]) rest
      | .error e => (l, .error e)
    else (l, .error (.InvalidItemNumber index))

/-- Rust `TodoList::delete_items` (src/lib.rs, lines 130-145). -/
def TodoList.delete_items (l : TodoList) (item_numbers : List Nat) :
    TodoList × Except TodoError (List TodoItem) :=
  deleteLoop l [] (sortDesc item_numbers)

/-! ## Display layer

The `Display` implementations in src/lib.rs write ANSI escape sequences
through owo-colors.  The sequences are embedded as concrete strings:
owo-colors emits the color introducer and then resets (foreground with
code 39, background with 49, strikethrough with 29). -/

/-- The ANSI escape character. -/
def ESC : String := String.mk [Char.ofNat 27]

/-- owo-colors `fg::<colors::Black>`. -/
def fgBlack (s : String) : String := ESC ++ "[30m" ++ s ++ ESC ++ "[39m"

/-- owo-colors `green()`. -/
def fgGreen (s : String) : String := ESC ++ "[32m" ++ s ++ ESC ++ "[39m"

/-- owo-colors `yellow()`. -/
def fgYellow (s : String) : String := ESC ++ "[33m" ++ s ++ ESC ++ "[39m"

/-- owo-colors `bg::<colors::Yellow>`. -/
def bgYellow (s : String) : String := ESC ++ "[43m" ++ s ++ ESC ++ "[49m"

/-- owo-colors `strikethrough()`. -/
def strike (s : String) : String := ESC ++ "[9m" ++ s ++ ESC ++ "[29m"

/-- Rust `render_tag` (src/lib.rs, lines 213-218): formats " #tag " and
styles it with a yellow background and black foreground. -/
def render_tag (s : String) : String := fgBlack (bgYellow (" #" ++ s ++ " "))

/-- Rust `str::split` at the character sequence "#", as called by
`color_tags` (src/lib.rs, line 223): all pieces between occurrences of
the separator, empty pieces included.  Never returns the empty list. -/
def splitOnHash : List Char → List (List Char)
  | [] => [[]]
  | c :: cs =>
    if c = '#' then [] :: splitOnHash cs
    else
      match splitOnHash cs with
      | p :: ps => (c :: p) :: ps
      | [] => [[c]]

/-- Rust `str::split_once` at the first whitespace character, as called by
`color_tags` (src/lib.rs, line 229): the parts strictly before and after
the first whitespace character, when one exists. -/
def splitOnceWs : List Char → Option (List Char × List Char)
  | [] => none
  | c :: cs =>
    if c.isWhitespace then some ([], cs)
    else
      match splitOnceWs cs with
      | some (a, b) => some (c :: a, b)
      | none => none

/-- The closure mapped over the pieces after each "#" in `color_tags`
(src/lib.rs, lines 226-237): a piece beginning with whitespace is kept
as is (note: the source does not put the split-off "#" back); otherwise
the first word is rendered as a tag, with the first whitespace character
replaced by a plain space. -/
def colorTagPiece (piece : List Char) : String :=
  if (piece.head?.map Char.isWhitespace).getD false then String.mk piece
  else
    match splitOnceWs piece with
    | some (firstWord, rest) => render_tag (String.mk firstWord) ++ " " ++ String.mk rest
    | none => render_tag (String.mk piece)

/-- Rust `color_tags` (src/lib.rs, lines 222-244). -/
def color_tags (s : String) : String :=
  match splitOnHash s.data with
  | [] => ""
  | first :: restPieces =>
    let rest := String.join (restPieces.map colorTagPiece)
    if rest = "" then String.mk first else String.mk first ++ rest

/-- Rust `impl Display for TodoItemState` (src/lib.rs, lines 275-282). -/
def stateDisplay : TodoItemState → String
  | .Done => fgGreen "✅"
  | .Initial => fgYellow "⬜"

/-- Rust `impl Display for TodoItem` (src/lib.rs, lines 255-273): a
space, the state glyph, a space, the tag-colored name (struck through
when done), then the tag-colored description on a new line if present. -/
def itemDisplay (t : TodoItem) : String :=
  " " ++ stateDisplay t.state ++ " " ++
  (if t.is_done then strike (color_tags t.name) else color_tags t.name) ++
  (match t.description with
   | some d => "\n" ++ color_tags d
   | none => "")

/-- Rust format specifier `{: >3}` applied to the 1-based number in
`display_with_numbers` (src/lib.rs, line 69): the decimal digits,
right-aligned with spaces to at least 3 columns. -/
def padNum3 (n : Nat) : String :=
  let s := Nat.repr n
  String.mk (List.replicate (3 - s.length) ' ') ++ s

/-- The map step of `display_with_numbers` (src/lib.rs, lines 68-71): a
`TodoItem` element at 0-based raw position `i` becomes the padded number
`i + 1` followed by a space and the rendered item; a passthrough element
becomes its stored string. -/
def displayEntry : Nat × TodoListFileItem → String
  | (i, .TodoItem item) => padNum3 (i + 1) ++ " " ++ itemDisplay item
  | (_, .String s) => s

/-- The filter step of `display_with_numbers` (src/lib.rs, lines 60-67):
the predicate is consulted for `TodoItem` elements (with the 0-based raw
enumeration position); passthrough elements are always kept. -/
def displayKeep (p : Nat × TodoItem → Bool) : Nat × TodoListFileItem → Bool
  | (i, .TodoItem t) => p (i, t)
  | (_, .String _) => true

/-- The enumerated, filtered element sequence that
`display_with_numbers` renders. -/
def displayedElems (l : TodoList) (p : Nat × TodoItem → Bool) :
    List (Nat × TodoListFileItem) :=
  l.list.enum.filter (displayKeep p)

/-- Rust `TodoList::display_with_numbers` (src/lib.rs, lines 53-75):
enumerate, filter, format each element, join with newlines. -/
def TodoList.display_with_numbers (l : TodoList) (p : Nat × TodoItem → Bool) : String :=
  joinNl ((displayedElems l p).map displayEntry)

/-- The batch mark-done of the `Commands::Done` handler (src/main.rs,
lines 152-155): `item_numbers.iter().map(|n| list.mark_item_done(*n))`
collected into a `Result`, short-circuiting at the first error while the
mutations already applied to the in-memory list persist. -/
def markDoneBatch (l : TodoList) : List Nat → TodoList × Except TodoError (List TodoItem)
  | [] => (l, .ok [])
  | n :: rest =>
    match l.mark_item_done n with
    | (l2, .error e) => (l2, .error e)
    | (l2, .ok t) =>
      match markDoneBatch l2 rest with
      | (l3, .error e) => (l3, .error e)
      | (l3, .ok ts) => (l3, .ok (t :: ts))

/-! ## Spec-side observers

These definitions are not translations of source functions: they are the
observers needed to state the claims (the number of parsed items, the item
stored at a raw position and the remainder of a batch deletion). -/

/-- The number of `TodoItem` elements of a list (the spec reading of the
item count, in which passthrough lines are not counted). -/
def countTodoItems (xs : List TodoListFileItem) : Nat :=
  (xs.filter fun e =>
    match e with
    | .TodoItem _ => true
    | .String _ => false).length

/-- Whether the element at 0-based raw position `i` is a `TodoItem`. -/
def isTodoItemAt (xs : List TodoListFileItem) (i : Nat) : Bool :=
  match xs[i]? with
  | some (.TodoItem _) => true
  | _ => false

/-- The `TodoItem` stored at 0-based raw position `i` (meaningful when
`isTodoItemAt xs i`; a dummy item otherwise). -/
def todoItemAt (xs : List TodoListFileItem) (i : Nat) : TodoItem :=
  match xs[i]? with
  | some (.TodoItem t) => t
  | _ => { name := "", description := none, state := .Initial }

/-- Spec-side remainder of a batch deletion: the elements whose 1-based
raw position is not listed in `ns`, in their original order (`k` is the
0-based position of the head of the remaining list). -/
def keepNotInFrom (k : Nat) (ns : List Nat) : List TodoListFileItem → List TodoListFileItem
  | [] => []
  | x :: xs =>
    if (k + 1) ∈ ns then keepNotInFrom (k + 1) ns xs
    else x :: keepNotInFrom (k + 1) ns xs

/-! ## Arithmetic lemmas for the wrapped index computation -/

theorem USIZE_pos : 0 < USIZE := by decide

theorem wrappingSubOne_zero : wrappingSubOne 0 = USIZE - 1 := by
  have h : USIZE - 1 < USIZE := by decide
  unfold wrappingSubOne
  rw [Nat.zero_add]
  exact Nat.mod_eq_of_lt h

theorem wrappingSubOne_of_pos {n : Nat} (h1 : 0 < n) (h2 : n ≤ USIZE) :
    wrappingSubOne n = n - 1 := by
  have hU := USIZE_pos
  unfold wrappingSubOne
  have h3 : n + (USIZE - 1) = (n - 1) + USIZE := by omega
  rw [h3, Nat.add_mod_right]
  exact Nat.mod_eq_of_lt (by omega)

/-! ## Lemmas about the descending sort -/

theorem insertDesc_perm (x : Nat) (l : List Nat) : List.Perm (insertDesc x l) (x :: l) := by
  induction l with
  | nil => simp [insertDesc]
  | cons y ys ih =>
    by_cases h : y ≤ x
    · simp [insertDesc, h]
    · rw [insertDesc, if_neg h]
      exact (ih.cons y).trans (List.Perm.swap x y ys)

theorem sortDesc_perm (l : List Nat) : List.Perm (sortDesc l) l := by
  induction l with
  | nil => exact List.Perm.refl []
  | cons x xs ih => exact (insertDesc_perm x (sortDesc xs)).trans (ih.cons x)

theorem insertDesc_sorted {x : Nat} : ∀ {l : List Nat},
    List.Sorted (fun a b => b ≤ a) l → List.Sorted (fun a b => b ≤ a) (insertDesc x l)
  | [], _ => by simp [insertDesc]
  | y :: ys, h => by
    rw [List.sorted_cons] at h
    by_cases hxy : y ≤ x
    · rw [insertDesc, if_pos hxy, List.sorted_cons]
      refine ⟨?_, by rw [List.sorted_cons]; exact h⟩
      intro b hb
      rcases List.mem_cons.mp hb with rfl | hb
      · exact hxy
      · exact le_trans (h.1 b hb) hxy
    · rw [insertDesc, if_neg hxy, List.sorted_cons]
      refine ⟨?_, insertDesc_sorted h.2⟩
      intro b hb
      rcases List.mem_cons.mp ((insertDesc_perm x ys).mem_iff.mp hb) with rfl | hb
      · exact le_of_not_le hxy
      · exact h.1 b hb

theorem sortDesc_sorted (l : List Nat) :
    List.Sorted (fun a b => b ≤ a) (sortDesc l) := by
  induction l with
  | nil => simp [sortDesc]
  | cons x xs ih => exact insertDesc_sorted ih

theorem sortDesc_sorted_gt {ns : List Nat} (hnd : ns.Nodup) :
    List.Sorted (fun a b => b < a) (sortDesc ns) := by
  have h1 := sortDesc_sorted ns
  have h2 : (sortDesc ns).Nodup := ((sortDesc_perm ns).nodup_iff).mpr hnd
  exact (List.Pairwise.and h1 h2).imp
    (fun hab => lt_of_le_of_ne hab.1 (Ne.symm hab.2))

theorem sortDesc_head_max {ns : List Nat} {n0 : Nat} (hmem : n0 ∈ ns)
    (hmax : ∀ m ∈ ns, m ≤ n0) : ∃ rest, sortDesc ns = n0 :: rest := by
  cases hs : sortDesc ns with
  | nil =>
    exfalso
    have : n0 ∈ sortDesc ns := (sortDesc_perm ns).mem_iff.mpr hmem
    rw [hs] at this
    exact List.not_mem_nil n0 this
  | cons h t =>
    have hperm := sortDesc_perm ns
    have hh : h ∈ ns := hperm.mem_iff.mp (by rw [hs]; exact List.mem_cons_self h t)
    have hle : h ≤ n0 := hmax h hh
    have hn0 : n0 ∈ h :: t := by rw [← hs]; exact hperm.mem_iff.mpr hmem
    rcases List.mem_cons.mp hn0 with rfl | hn0t
    · exact ⟨t, rfl⟩
    · have hsorted := sortDesc_sorted ns
      rw [hs, List.sorted_cons] at hsorted
      have h1 : n0 ≤ h := hsorted.1 n0 hn0t
      have h2 : h = n0 := le_antisymm hle h1
      exact ⟨t, by rw [h2]⟩

/-! ## Lemmas about the spec-side remainder -/

theorem keepNotInFrom_of_le {ns : List Nat} :
    ∀ (xs : List TodoListFileItem) (k : Nat), (∀ m ∈ ns, m ≤ k) →
    keepNotInFrom k ns xs = xs
  | [], _, _ => rfl
  | x :: xs, k, h => by
    have hnot : (k + 1) ∉ ns := fun hm => by have := h _ hm; omega
    rw [keepNotInFrom, if_neg hnot,
      keepNotInFrom_of_le xs (k + 1) (fun m hm => le_trans (h m hm) (Nat.le_succ k))]

theorem keepNotInFrom_congr {ns ns' : List Nat} (h : ∀ m, m ∈ ns ↔ m ∈ ns') :
    ∀ (xs : List TodoListFileItem) (k : Nat),
    keepNotInFrom k ns xs = keepNotInFrom k ns' xs
  | [], _ => rfl
  | x :: xs, k => by
    by_cases hin : (k + 1) ∈ ns
    · rw [keepNotInFrom, if_pos hin, keepNotInFrom, if_pos ((h (k + 1)).mp hin),
        keepNotInFrom_congr h xs (k + 1)]
    · rw [keepNotInFrom, if_neg hin, keepNotInFrom,
        if_neg (fun hc => hin ((h (k + 1)).mpr hc)), keepNotInFrom_congr h xs (k + 1)]

theorem keepNotInFrom_eraseIdx {n : Nat} {ns : List Nat} (hns : ∀ m ∈ ns, m < n) :
    ∀ (xs : List TodoListFileItem) (k : Nat), k < n →
    keepNotInFrom k ns (xs.eraseIdx (n - 1 - k)) = keepNotInFrom k (n :: ns) xs := by
  intro xs
  induction xs with
  | nil => intro k _; simp [keepNotInFrom]
  | cons x xs ih =>
    intro k hk
    rcases Nat.eq_or_lt_of_le (Nat.succ_le_of_lt hk) with heq | hlt
    · -- k + 1 = n: the head is erased on the left, skipped on the right
      have hidx : n - 1 - k = 0 := by omega
      rw [hidx, List.eraseIdx_cons_zero,
        keepNotInFrom_of_le xs k (fun m hm => by have := hns m hm; omega),
        keepNotInFrom, if_pos (by rw [← heq]; exact List.mem_cons_self _ _),
        keepNotInFrom_of_le xs (k + 1)
          (fun m hm => by rcases List.mem_cons.mp hm with rfl | hm
                          · omega
                          · have := hns m hm; omega)]
    · -- k + 1 < n: the head is kept on both sides
      have hidx : n - 1 - k = (n - 1 - (k + 1)) + 1 := by omega
      have hner : (k + 1) ∈ (n :: ns) ↔ (k + 1) ∈ ns := by
        have hne : ¬ (k + 1 = n) := by omega
        simp [List.mem_cons, hne]
      rw [hidx, List.eraseIdx_cons_succ, keepNotInFrom, keepNotInFrom]
      by_cases hin : (k + 1) ∈ ns
      · rw [if_pos hin, if_pos (hner.mpr hin), ih (k + 1) hlt]
      · rw [if_neg hin, if_neg (fun hc => hin (hner.mp hc)), ih (k + 1) hlt]

/-! ## Lemmas about the raw-position item observers -/

theorem isTodoItemAt_spec {xs : List TodoListFileItem} {i : Nat}
    (h : isTodoItemAt xs i = true) :
    xs[i]? = some (.TodoItem (todoItemAt xs i)) := by
  cases hx : xs[i]? with
  | none => rw [isTodoItemAt, hx] at h; exact absurd h (by simp)
  | some e =>
    cases e with
    | TodoItem t => rw [todoItemAt, hx]
    | String s => rw [isTodoItemAt, hx] at h; exact absurd h (by simp)

theorem isTodoItemAt_lt_length {xs : List TodoListFileItem} {i : Nat}
    (h : isTodoItemAt xs i = true) : i < xs.length := by
  rcases List.getElem?_eq_some_iff.mp (isTodoItemAt_spec h) with ⟨hlt, _⟩
  exact hlt

theorem isTodoItemAt_eraseIdx_of_lt {xs : List TodoListFileItem} {i k : Nat}
    (hik : i < k) : isTodoItemAt (xs.eraseIdx k) i = isTodoItemAt xs i := by
  rw [isTodoItemAt, isTodoItemAt, List.getElem?_eraseIdx_of_lt xs k i hik]

theorem todoItemAt_eraseIdx_of_lt {xs : List TodoListFileItem} {i k : Nat}
    (hik : i < k) : todoItemAt (xs.eraseIdx k) i = todoItemAt xs i := by
  rw [todoItemAt, todoItemAt, List.getElem?_eraseIdx_of_lt xs k i hik]

/-! ## Lemmas about the accessors -/

theorem get_item_of_valid {l : TodoList} {n : Nat} {t : TodoItem}
    (h1 : 0 < n) (h2 : n ≤ USIZE)
    (hget : l.list[n - 1]? = some (.TodoItem t)) :
    l.get_item n = .ok t := by
  rw [TodoList.get_item, wrappingSubOne_of_pos h1 h2, hget]

theorem get_item_invalid {l : TodoList} {n : Nat} (hn : n < USIZE)
    (hlen : l.list.length < USIZE) (h : n = 0 ∨ l.list.length < n) :
    l.get_item n = .error (.InvalidItemNumber n) := by
  rw [TodoList.get_item]
  rcases h with rfl | h
  · rw [wrappingSubOne_zero, List.getElem?_eq_none (by omega)]
  · have h0 : 0 < n := lt_of_le_of_lt (Nat.zero_le _) h
    rw [wrappingSubOne_of_pos h0 (le_of_lt hn), List.getElem?_eq_none (by omega)]

theorem get_item_cases (l : TodoList) (n : Nat) :
    (∃ t, l.get_item n = .ok t) ∨ l.get_item n = .error (.InvalidItemNumber n) := by
  rw [TodoList.get_item]
  cases hx : l.list[wrappingSubOne n]? with
  | none => right; rfl
  | some e =>
    cases e with
    | TodoItem t => left; exact ⟨t, rfl⟩
    | String s => right; rfl

/-! ## The deletion loop on a batch of distinct valid indices -/

theorem deleteLoop_all_valid :
    ∀ (ns : List Nat) (l : TodoList) (acc : List TodoItem),
    List.Sorted (fun a b => b < a) ns →
    (∀ m ∈ ns, 0 < m ∧ m ≤ l.list.length ∧ isTodoItemAt l.list (m - 1) = true) →
    l.list.length ≤ USIZE →
    deleteLoop l acc ns =
      ({ l with list := keepNotInFrom 0 ns l.list },
       .ok (acc ++ ns.map (fun m => todoItemAt l.list (m - 1)))) := by
  intro ns
  induction ns with
  | nil =>
    intro l acc _ _ _
    rw [deleteLoop, keepNotInFrom_of_le l.list 0 (by simp), List.map_nil, List.append_nil]
  | cons n rest ih =>
    intro l acc hsor hval hus
    rw [List.sorted_cons] at hsor
    obtain ⟨hn0, hnle, hitem⟩ := hval n (List.mem_cons_self n rest)
    have ht := isTodoItemAt_spec hitem
    rw [deleteLoop, if_pos ⟨hn0, hnle⟩, get_item_of_valid hn0 (le_trans hnle hus) ht]
    dsimp only
    have hlen' : (l.list.eraseIdx (n - 1)).length = l.list.length - 1 := by
      rw [List.length_eraseIdx, if_pos (by omega)]
    rw [ih { l with list := l.list.eraseIdx (n - 1) } (acc ++ [todoItemAt l.list (n - 1)])
      hsor.2
      (by intro m hm
          obtain ⟨hm0, hmle, hmitem⟩ := hval m (List.mem_cons_of_mem n hm)
          have hmn : m < n := hsor.1 m hm
          refine ⟨hm0, by simp only [hlen']; omega, ?_⟩
          rw [isTodoItemAt_eraseIdx_of_lt (by omega)]
          exact hmitem)
      (by simp only [hlen']; omega)]
    have hkeep : keepNotInFrom 0 rest (l.list.eraseIdx (n - 1)) =
        keepNotInFrom 0 (n :: rest) l.list := by
      have hx := keepNotInFrom_eraseIdx hsor.1 l.list 0 hn0
      rwa [Nat.sub_zero] at hx
    have hmap : rest.map (fun m => todoItemAt (l.list.eraseIdx (n - 1)) (m - 1)) =
        rest.map (fun m => todoItemAt l.list (m - 1)) := by
      apply List.map_congr_left
      intro m hm
      have hmn : m < n := hsor.1 m hm
      have hm0 : 0 < m := (hval m (List.mem_cons_of_mem n hm)).1
      exact todoItemAt_eraseIdx_of_lt (by omega)
    simp only [hkeep, hmap, List.map_cons, List.append_assoc, List.singleton_append]

/-! ## Error behavior of the batch operations -/

theorem deleteLoop_ok_valid :
    ∀ (ns : List Nat) (l : TodoList) (acc : List TodoItem) (r : List TodoItem),
    (deleteLoop l acc ns).2 = .ok r → ∀ m ∈ ns, 0 < m ∧ m ≤ l.list.length := by
  intro ns
  induction ns with
  | nil => intro l acc r _ m hm; exact absurd hm (List.not_mem_nil m)
  | cons n rest ih =>
    intro l acc r h m hm
    rw [deleteLoop] at h
    by_cases hg : 0 < n ∧ n ≤ l.list.length
    · rw [if_pos hg] at h
      rcases get_item_cases l n with ⟨t, hget⟩ | hget
      · rw [hget] at h
        dsimp only at h
        rcases List.mem_cons.mp hm with rfl | hm
        · exact hg
        · have hr := ih _ _ _ h m hm
          exact ⟨hr.1, le_trans hr.2 (List.length_eraseIdx_le _ _)⟩
      · rw [hget] at h
        exact absurd h (by simp)
    · rw [if_neg hg] at h
      exact absurd h (by simp)

theorem deleteLoop_error_form :
    ∀ (ns : List Nat) (l : TodoList) (acc : List TodoItem),
    (∃ r, (deleteLoop l acc ns).2 = .ok r) ∨
    (∃ k, (deleteLoop l acc ns).2 = .error (.InvalidItemNumber k)) := by
  intro ns
  induction ns with
  | nil => intro l acc; left; exact ⟨acc, rfl⟩
  | cons n rest ih =>
    intro l acc
    rw [deleteLoop]
    by_cases hg : 0 < n ∧ n ≤ l.list.length
    · rw [if_pos hg]
      rcases get_item_cases l n with ⟨t, hget⟩ | hget
      · rw [hget]
        exact ih _ _
      · rw [hget]
        right; exact ⟨n, rfl⟩
    · rw [if_neg hg]
      right; exact ⟨n, rfl⟩

theorem markDoneBatch_ok_valid :
    ∀ (ns : List Nat) (l : TodoList) (r : List TodoItem),
    (∀ m ∈ ns, m < USIZE) → l.list.length < USIZE →
    (markDoneBatch l ns).2 = .ok r →
    ∀ m ∈ ns, 0 < m ∧ m ≤ l.list.length := by
  intro ns
  induction ns with
  | nil => intro l r _ _ _ m hm; exact absurd hm (List.not_mem_nil m)
  | cons n rest ih =>
    intro l r hb hlen h m hm
    rw [markDoneBatch, TodoList.mark_item_done] at h
    cases hx : l.list[wrappingSubOne n]? with
    | none =>
      rw [hx] at h
      exact absurd h (by simp)
    | some e =>
      cases e with
      | String s =>
        rw [hx] at h
        exact absurd h (by simp)
      | TodoItem t =>
        rw [hx] at h
        dsimp only at h
        have hidx : wrappingSubOne n < l.list.length :=
          (List.getElem?_eq_some_iff.mp hx).1
        have hn0 : 0 < n := by
          rcases Nat.eq_zero_or_pos n with rfl | hp
          · rw [wrappingSubOne_zero] at hidx
            omega
          · exact hp
        have hnle : n ≤ l.list.length := by
          have hw : wrappingSubOne n = n - 1 :=
            wrappingSubOne_of_pos hn0 (le_of_lt (hb n (List.mem_cons_self n rest)))
          rw [hw] at hidx
          omega
        rcases List.mem_cons.mp hm with rfl | hm
        · exact ⟨hn0, hnle⟩
        · set l2 : TodoList :=
            { l with list := l.list.set (wrappingSubOne n) (.TodoItem t.mark_done) } with hl2
          have hlen2 : l2.list.length = l.list.length := by
            rw [hl2]; exact List.length_set _ _ _
          cases hrec : markDoneBatch l2 rest with
          | mk l3 res =>
            cases res with
            | error e2 =>
              rw [hrec] at h
              exact absurd h (by simp)
            | ok ts =>
              have hr := ih l2 ts (fun m hm => hb m (List.mem_cons_of_mem n hm))
                (by rw [hlen2]; exact hlen) (by rw [hrec]) m hm
              rw [hlen2] at hr
              exact hr

theorem markDoneBatch_error_form :
    ∀ (ns : List Nat) (l : TodoList),
    (∃ r, (markDoneBatch l ns).2 = .ok r) ∨
    (∃ k, (markDoneBatch l ns).2 = .error (.InvalidItemNumber k)) := by
  intro ns
  induction ns with
  | nil => intro l; left; exact ⟨[], rfl⟩
  | cons n rest ih =>
    intro l
    rw [markDoneBatch, TodoList.mark_item_done]
    cases hx : l.list[wrappingSubOne n]? with
    | none => right; exact ⟨n, rfl⟩
    | some e =>
      cases e with
      | String s => right; exact ⟨n, rfl⟩
      | TodoItem t =>
        dsimp only
        set l2 : TodoList :=
          { l with list := l.list.set (wrappingSubOne n) (.TodoItem t.mark_done) } with hl2
        cases hrec : markDoneBatch l2 rest with
        | mk l3 res =>
          cases res with
          | error e2 =>
            rcases ih l2 with ⟨r, hok⟩ | ⟨k, herr⟩
            · rw [hrec] at hok
              exact absurd hok (by simp)
            · rw [hrec] at herr
              right
              exact ⟨k, herr⟩
          | ok ts => left; exact ⟨t.mark_done :: ts, rfl⟩

/-! ## Round-trip lemmas: lines, join, per-line serialization -/

theorem mk_data (s : String) : String.mk s.data = s := rfl

theorem joinNl_cons_cons (a b : String) (t : List String) :
    joinNl (a :: b :: t) = a ++ "\n" ++ joinNl (b :: t) := rfl

theorem stripSuffixChar_append (c : Char) (a : List Char) :
    stripSuffixChar c (a ++ [c]) = some a := by
  rw [stripSuffixChar, List.reverse_append]
  simp

theorem stripSuffixChar_of_not_mem {c : Char} {a : List Char} (h : c ∉ a) :
    stripSuffixChar c a = none := by
  rw [stripSuffixChar]
  cases ha : a.reverse with
  | nil => rfl
  | cons d rest =>
    have hd : d ∈ a := by
      rw [← List.mem_reverse, ha]
      exact List.mem_cons_self d rest
    have hdc : ¬ (d = c) := fun hc => h (hc ▸ hd)
    simp [hdc]

theorem linesMap_append_nl {a : List Char} (hr : '\r' ∉ a) :
    linesMap (a ++ ['\n']) = a := by
  rw [linesMap, stripSuffixChar_append]
  dsimp only
  rw [stripSuffixChar_of_not_mem hr]

theorem linesMap_no_nl {a : List Char} (hn : '\n' ∉ a) : linesMap a = a := by
  rw [linesMap, stripSuffixChar_of_not_mem hn]

theorem splitInclNl_append_nl {a : List Char} (ha : '\n' ∉ a) :
    ∀ t : List Char, splitInclNl (a ++ '\n' :: t) = (a ++ ['\n']) :: splitInclNl t := by
  induction a with
  | nil => intro t; simp [splitInclNl]
  | cons c cs ih =>
    intro t
    have hc : ¬ (c = '\n') := fun h => ha (h ▸ List.mem_cons_self c cs)
    have hcs : '\n' ∉ cs := fun h => ha (List.mem_cons_of_mem c h)
    rw [List.cons_append, splitInclNl, if_neg hc, ih hcs]
    rfl

theorem splitInclNl_no_nl {a : List Char} (ha : '\n' ∉ a) (hne : a ≠ []) :
    splitInclNl a = [a] := by
  induction a with
  | nil => exact absurd rfl hne
  | cons c cs ih =>
    have hc : ¬ (c = '\n') := fun h => ha (h ▸ List.mem_cons_self c cs)
    have hcs : '\n' ∉ cs := fun h => ha (List.mem_cons_of_mem c h)
    by_cases hcse : cs = []
    · subst hcse
      rw [splitInclNl, if_neg hc]
      rfl
    · rw [splitInclNl, if_neg hc, ih hcs hcse]

theorem rustLines_joinNl :
    ∀ (ls : List String), (∀ l ∈ ls, l.data ≠ [] ∧ '\n' ∉ l.data ∧ '\r' ∉ l.data) →
    rustLines (joinNl ls) = ls
  | [], _ => rfl
  | [l], h => by
    obtain ⟨hne, hn, hr⟩ := h l (List.mem_singleton_self l)
    rw [joinNl, rustLines, splitInclNl_no_nl hn hne, List.map_cons, List.map_nil,
      linesMap_no_nl hn, mk_data]
  | l :: l2 :: rest, h => by
    obtain ⟨hne, hn, hr⟩ := h l (List.mem_cons_self l (l2 :: rest))
    have hrest : ∀ x ∈ l2 :: rest, x.data ≠ [] ∧ '\n' ∉ x.data ∧ '\r' ∉ x.data :=
      fun x hx => h x (List.mem_cons_of_mem l hx)
    have ih := rustLines_joinNl (l2 :: rest) hrest
    have hdata : (joinNl (l :: l2 :: rest)).data =
        l.data ++ '\n' :: (joinNl (l2 :: rest)).data := by
      rw [joinNl_cons_cons, String.data_append, String.data_append]
      simp
    rw [rustLines] at ih ⊢
    rw [hdata, splitInclNl_append_nl hn, List.map_cons, linesMap_append_nl hr, mk_data, ih]

theorem rustLines_joinNl_trailing :
    ∀ (ls : List String), ls ≠ [] →
    (∀ l ∈ ls, l.data ≠ [] ∧ '\n' ∉ l.data ∧ '\r' ∉ l.data) →
    rustLines (joinNl ls ++ "\n") = ls
  | [], hno, _ => absurd rfl hno
  | [l], _, h => by
    obtain ⟨hne, hn, hr⟩ := h l (List.mem_singleton_self l)
    have hdata : (joinNl [l] ++ "\n").data = l.data ++ '\n' :: [] := by
      rw [String.data_append]
      rfl
    rw [rustLines, hdata, splitInclNl_append_nl hn, List.map_cons,
      linesMap_append_nl hr, mk_data]
    rfl
  | l :: l2 :: rest, _, h => by
    obtain ⟨hne, hn, hr⟩ := h l (List.mem_cons_self l (l2 :: rest))
    have hrest : ∀ x ∈ l2 :: rest, x.data ≠ [] ∧ '\n' ∉ x.data ∧ '\r' ∉ x.data :=
      fun x hx => h x (List.mem_cons_of_mem l hx)
    have ih := rustLines_joinNl_trailing (l2 :: rest) (by simp) hrest
    have hdata : ((joinNl (l :: l2 :: rest)) ++ "\n").data =
        l.data ++ '\n' :: ((joinNl (l2 :: rest)) ++ "\n").data := by
      rw [joinNl_cons_cons, String.data_append, String.data_append,
        String.data_append, String.data_append]
      simp
    rw [rustLines] at ih ⊢
    rw [hdata, splitInclNl_append_nl hn, List.map_cons, linesMap_append_nl hr, mk_data, ih]

/-- Serializing the classification of any single line reproduces the line:
item lines render back to their exact source text, every other line is
kept verbatim. -/
theorem serializeElem_classifyLine (l : String) : serializeElem (classifyLine l) = l := by
  rw [classifyLine]
  by_cases h : startsWithDashBracket l.data
  · rw [if_pos h]
    cases hp : todoItemFromStr l with
    | error e => rfl
    | ok item =>
      rw [todoItemFromStr] at hp
      unfold todoItemFromChars at hp
      split at hp
      next rest heq =>
        cases rest with
        | nil => exact absurd hp (by simp)
        | cons mark rest1 =>
          cases rest1 with
          | nil => exact absurd hp (by simp)
          | cons d1 rest2 =>
            dsimp only at hp
            by_cases hd1 : d1 = ']'
            · rw [if_pos hd1] at hp
              cases rest2 with
              | nil => exact absurd hp (by simp)
              | cons d2 rest3 =>
                dsimp only at hp
                by_cases hd2 : d2 = ' '
                · rw [if_pos hd2] at hp
                  by_cases h3 : rest3 = []
                  · rw [if_pos h3] at hp
                    exact absurd hp (by simp)
                  · rw [if_neg h3, todoItemStateFromStr] at hp
                    by_cases hx : String.mk [mark] = "x"
                    · rw [if_pos hx] at hp
                      have hmark : mark = 'x' := by
                        have hd := congrArg String.data hx
                        simpa using hd
                      have hitem : item =
                          { name := String.mk rest3, description := none,
                            state := .Done } := by
                        cases hp
                        rfl
                      apply String.ext
                      rw [hitem, heq, hd1, hd2, hmark]
                      rfl
                    · rw [if_neg hx] at hp
                      by_cases hsp : String.mk [mark] = " "
                      · rw [if_pos hsp] at hp
                        have hmark : mark = ' ' := by
                          have hd := congrArg String.data hsp
                          simpa using hd
                        have hitem : item =
                            { name := String.mk rest3, description := none,
                              state := .Initial } := by
                          cases hp
                          rfl
                        apply String.ext
                        rw [hitem, heq, hd1, hd2, hmark]
                        rfl
                      · rw [if_neg hsp] at hp
                        exact absurd hp (by simp)
                · rw [if_neg hd2] at hp
                  exact absurd hp (by simp)
            · rw [if_neg hd1] at hp
              exact absurd hp (by simp)
      next => exact absurd hp (by simp)
  · rw [if_neg h]
    rfl

/-- Round trip of a whole document built from carriage-return-free lines:
parsing then serializing is the identity, and a trailing newline is
dropped (the trailing-newline normalization). -/
theorem as_markdown_list_from_str (ls : List String)
    (h : ∀ l ∈ ls, l.data ≠ [] ∧ '\n' ∉ l.data ∧ '\r' ∉ l.data) (nm : String) :
    (TodoList.mk nm (list_from_str (joinNl ls))).as_markdown = joinNl ls ∧
    (ls ≠ [] →
      (TodoList.mk nm (list_from_str (joinNl ls ++ "\n"))).as_markdown = joinNl ls) := by
  have hmap : ls.map (serializeElem ∘ classifyLine) = ls := by
    have h2 : ∀ a ∈ ls, (serializeElem ∘ classifyLine) a = id a :=
      fun a _ => serializeElem_classifyLine a
    rw [List.map_congr_left h2, List.map_id]
  constructor
  · show joinNl (((rustLines (joinNl ls)).map classifyLine).map serializeElem) = joinNl ls
    rw [rustLines_joinNl ls h, List.map_map, hmap]
  · intro hne
    show joinNl (((rustLines (joinNl ls ++ "\n")).map classifyLine).map serializeElem) =
      joinNl ls
    rw [rustLines_joinNl_trailing ls hne h, List.map_map, hmap]

/-! ## Remaining support lemmas -/

theorem data_ne_nil_of_isOk {l : String} (h : (todoItemFromStr l).isOk = true) :
    l.data ≠ [] := by
  intro hd
  rw [todoItemFromStr, hd] at h
  have he : todoItemFromChars ([] : List Char) =
      .error (.ParseError .noCheckboxPrefix (String.mk [])) := rfl
  rw [he] at h
  exact absurd h (by decide)

theorem displayedElems_true (l : TodoList) :
    displayedElems l (fun _ => true) = l.list.enum := by
  rw [displayedElems]
  apply List.filter_eq_self.mpr
  intro a _
  cases a with
  | mk i e =>
    cases e with
    | TodoItem t => rfl
    | String s => rfl

theorem delete_items_max_invalid {l : TodoList} {ns : List Nat} {n0 : Nat}
    (hmem : n0 ∈ ns) (hmax : ∀ m ∈ ns, m ≤ n0)
    (hinv : n0 = 0 ∨ l.list.length < n0) :
    l.delete_items ns = (l, .error (.InvalidItemNumber n0)) := by
  obtain ⟨rest, hs⟩ := sortDesc_head_max hmem hmax
  rw [TodoList.delete_items, hs, deleteLoop, if_neg ?_]
  intro hc
  rcases hinv with rfl | hv
  · exact lt_irrefl 0 hc.1
  · have := hc.2
    omega

/-! ## The claims -/

/-- Claim C5, amended: for every list (the empty list included), calling
`get_item`, `get_item_mut` or `mark_item_done` with index 0 or with any
index beyond the element count (the raw length of the parsed sequence,
passthrough lines included) returns `InvalidItemNumber` carrying the
offending index, and `mark_item_done` leaves the list unchanged; the
lookup is total under the release-profile wrapping semantics of
`item_number - 1`.  (The claim as frozen says "beyond the item count",
counting only `TodoItem` elements; that reading is refuted by
`C5_counterexample` below.) -/
theorem C5_zero_and_out_of_range_indices_error (l : TodoList) (n : Nat)
    (hn : n < USIZE) (hlen : l.list.length < USIZE)
    (h : n = 0 ∨ l.list.length < n) :
    l.get_item n = .error (.InvalidItemNumber n) ∧
    l.get_item_mut n = .error (.InvalidItemNumber n) ∧
    l.mark_item_done n = (l, .error (.InvalidItemNumber n)) := by
  have hnone : l.list[wrappingSubOne n]? = none := by
    rcases h with rfl | h
    · rw [wrappingSubOne_zero]
      exact List.getElem?_eq_none (by omega)
    · have h0 : 0 < n := lt_of_le_of_lt (Nat.zero_le _) h
      rw [wrappingSubOne_of_pos h0 (le_of_lt hn)]
      exact List.getElem?_eq_none (by omega)
  refine ⟨?_, ?_, ?_⟩
  · rw [TodoList.get_item, hnone]
  · rw [TodoList.get_item_mut, hnone]
  · rw [TodoList.mark_item_done, hnone]

/-- Witness for C5: on the empty list, index 0 errors in all three
accessors. -/
theorem C5_witness :
    (TodoList.mk "t" []).get_item 0 = .error (.InvalidItemNumber 0) ∧
    (TodoList.mk "t" []).get_item_mut 0 = .error (.InvalidItemNumber 0) ∧
    (TodoList.mk "t" []).mark_item_done 0 =
      (TodoList.mk "t" [], .error (.InvalidItemNumber 0)) :=
  C5_zero_and_out_of_range_indices_error (TodoList.mk "t" []) 0
    (by decide) (by decide) (Or.inl rfl)

/-- Counterexample for C5 as frozen: in the document "x\n- [ ] a" the
item count (number of `TodoItem` elements) is 1, so index 2 is beyond the
item count; yet `get_item 2` succeeds instead of returning
`InvalidItemNumber 2`, because the code indexes the raw element sequence
in which the passthrough line "x" occupies position 1. -/
theorem C5_counterexample :
    countTodoItems (list_from_str "x\n- [ ] a") = 1 ∧
    (TodoList.mk "t" (list_from_str "x\n- [ ] a")).get_item 2 =
      .ok { name := "a", description := none, state := .Initial } := by
  constructor
  · decide
  · decide

/-- Claim C1, amended: the 1-based number exposed at the public interface
is the raw position of the element in the full parsed sequence, so
passthrough lines DO consume numbers: the element at 0-based raw position
`i`, when it is a `TodoItem`, is displayed by `display_with_numbers`
under the number `i + 1` and is addressed by `get_item` under the same
index `i + 1`; with the always-true predicate the display lists every
element with its raw-position number.  (The claim as frozen says the
number equals the rank among `TodoItem` elements only; that is refuted by
`C1_counterexample`.) -/
theorem C1_numbering_counts_all_elements (l : TodoList) (i : Nat) (t : TodoItem)
    (hi : i < USIZE) (hget : l.list[i]? = some (.TodoItem t)) :
    displayEntry (i, .TodoItem t) = padNum3 (i + 1) ++ " " ++ itemDisplay t ∧
    l.get_item (i + 1) = .ok t ∧
    l.display_with_numbers (fun _ => true) = joinNl (l.list.enum.map displayEntry) := by
  refine ⟨rfl, ?_, ?_⟩
  · exact get_item_of_valid (Nat.succ_pos i) (by omega)
      (by rw [Nat.add_sub_cancel]; exact hget)
  · rw [TodoList.display_with_numbers, displayedElems_true]

/-- Witness for C1 (amended): in the document "x\n- [ ] a" the item sits
at raw position 1 (0-based), is printed as number 2 and is fetched by
`get_item 2`. -/
theorem C1_witness :
    displayEntry (1, .TodoItem { name := "a", description := none, state := .Initial }) =
      padNum3 2 ++ " " ++ itemDisplay { name := "a", description := none, state := .Initial } ∧
    (TodoList.mk "t" (list_from_str "x\n- [ ] a")).get_item 2 =
      .ok { name := "a", description := none, state := .Initial } ∧
    (TodoList.mk "t" (list_from_str "x\n- [ ] a")).display_with_numbers (fun _ => true) =
      joinNl ((list_from_str "x\n- [ ] a").enum.map displayEntry) :=
  C1_numbering_counts_all_elements (TodoList.mk "t" (list_from_str "x\n- [ ] a")) 1
    { name := "a", description := none, state := .Initial } (by decide) (by decide)

/-- Counterexample for C1 as frozen: in "x\n- [ ] a" the single item has
rank 1 among `TodoItem` elements, but the number exposed for it is 2, not
1: `get_item 1` fails (position 1 holds the passthrough line) while
`get_item 2` succeeds, and the display prints the item under number 2. -/
theorem C1_counterexample :
    countTodoItems (list_from_str "x\n- [ ] a") = 1 ∧
    (TodoList.mk "t" (list_from_str "x\n- [ ] a")).get_item 1 =
      .error (.InvalidItemNumber 1) ∧
    (TodoList.mk "t" (list_from_str "x\n- [ ] a")).display_with_numbers (fun _ => true) =
      "x\n" ++ padNum3 2 ++ " " ++
        itemDisplay { name := "a", description := none, state := .Initial } := by
  refine ⟨by decide, by decide, ?_⟩
  decide

/-- Claim C10, confirmed: display and mutation numbering agree.  For every
parsed list and display predicate, a `TodoItem` kept by the predicate at
0-based raw enumeration position `i` appears in the displayed sequence and
is rendered under the number `i + 1`; that very same index `i + 1` is the
one under which `get_item` returns the item, `mark_item_done` marks it,
and `delete_items` removes it.  Both numbers are the 1-based raw position
in the full element sequence, passthrough lines included. -/
theorem C10_display_and_mutation_numbers_agree (l : TodoList)
    (p : Nat × TodoItem → Bool) (i : Nat) (t : TodoItem)
    (hlen : l.list.length < USIZE)
    (hget : l.list[i]? = some (.TodoItem t)) (hp : p (i, t) = true) :
    (i, TodoListFileItem.TodoItem t) ∈ displayedElems l p ∧
    displayEntry (i, .TodoItem t) = padNum3 (i + 1) ++ " " ++ itemDisplay t ∧
    l.get_item (i + 1) = .ok t ∧
    l.mark_item_done (i + 1) =
      ({ l with list := l.list.set i (.TodoItem t.mark_done) }, .ok t.mark_done) ∧
    (l.delete_items [i + 1]).2 = .ok [t] ∧
    (l.delete_items [i + 1]).1.list = l.list.eraseIdx i := by
  have hi : i < l.list.length := (List.getElem?_eq_some_iff.mp hget).1
  have hw : wrappingSubOne (i + 1) = i := by
    rw [wrappingSubOne_of_pos (Nat.succ_pos i) (by omega)]
    omega
  have hgi : l.get_item (i + 1) = .ok t :=
    get_item_of_valid (Nat.succ_pos i) (by omega)
      (by rw [Nat.add_sub_cancel]; exact hget)
  have hdel : l.delete_items [i + 1] =
      ({ l with list := l.list.eraseIdx i }, .ok [t]) := by
    have hs : sortDesc [i + 1] = [i + 1] := rfl
    rw [TodoList.delete_items, hs, deleteLoop, if_pos ⟨Nat.succ_pos i, by omega⟩, hgi]
    dsimp only
    rw [Nat.add_sub_cancel, deleteLoop, List.nil_append]
  refine ⟨?_, rfl, hgi, ?_, ?_, ?_⟩
  · rw [displayedElems]
    apply List.mem_filter.mpr
    refine ⟨List.mem_enum_iff_getElem?.mpr hget, hp⟩
  · rw [TodoList.mark_item_done, hw, hget]
  · rw [hdel]
  · rw [hdel]

/-- Witness for C10: in "x\n- [ ] a" the item at raw position 1 is
displayed as number 2, and index 2 fetches, marks and deletes it. -/
theorem C10_witness :
    (1, TodoListFileItem.TodoItem { name := "a", description := none, state := .Initial }) ∈
      displayedElems (TodoList.mk "t" (list_from_str "x\n- [ ] a")) (fun _ => true) ∧
    displayEntry (1, .TodoItem { name := "a", description := none, state := .Initial }) =
      padNum3 2 ++ " " ++ itemDisplay { name := "a", description := none, state := .Initial } ∧
    (TodoList.mk "t" (list_from_str "x\n- [ ] a")).get_item 2 =
      .ok { name := "a", description := none, state := .Initial } ∧
    (TodoList.mk "t" (list_from_str "x\n- [ ] a")).mark_item_done 2 =
      ({ TodoList.mk "t" (list_from_str "x\n- [ ] a") with
          list := (list_from_str "x\n- [ ] a").set 1
            (.TodoItem ({ name := "a", description := none, state := .Initial} : TodoItem).mark_done) },
        .ok ({ name := "a", description := none, state := .Initial} : TodoItem).mark_done) ∧
    ((TodoList.mk "t" (list_from_str "x\n- [ ] a")).delete_items [2]).2 =
      .ok [{ name := "a", description := none, state := .Initial }] ∧
    ((TodoList.mk "t" (list_from_str "x\n- [ ] a")).delete_items [2]).1.list =
      (list_from_str "x\n- [ ] a").eraseIdx 1 :=
  C10_display_and_mutation_numbers_agree (TodoList.mk "t" (list_from_str "x\n- [ ] a"))
    (fun _ => true) 1 { name := "a", description := none, state := .Initial }
    (by decide) (by decide) rfl

/-- Claim C8, amended: for every batch of PAIRWISE-DISTINCT valid indices
(each positive, within the element count, addressing a `TodoItem`),
`delete_items` succeeds, the removed items are returned ordered by
strictly descending original index (the descending sort of the batch),
and the resulting list is exactly the subsequence of elements whose
1-based raw position is not in the batch, in their original order.  (The
claim as frozen quantifies over every batch of valid indices, which
includes batches with duplicates; that is refuted by
`C8_counterexample`.) -/
theorem C8_delete_batch_deterministic (l : TodoList) (ns : List Nat)
    (hnd : ns.Nodup)
    (hval : ∀ m ∈ ns, 0 < m ∧ m ≤ l.list.length ∧ isTodoItemAt l.list (m - 1) = true)
    (hlen : l.list.length ≤ USIZE) :
    (l.delete_items ns).2 =
      .ok ((sortDesc ns).map (fun m => todoItemAt l.list (m - 1))) ∧
    (l.delete_items ns).1.list = keepNotInFrom 0 ns l.list ∧
    List.Sorted (fun a b => b < a) (sortDesc ns) ∧
    List.Perm (sortDesc ns) ns := by
  have hvs : ∀ m ∈ sortDesc ns, 0 < m ∧ m ≤ l.list.length ∧
      isTodoItemAt l.list (m - 1) = true :=
    fun m hm => hval m ((sortDesc_perm ns).mem_iff.mp hm)
  have hloop := deleteLoop_all_valid (sortDesc ns) l [] (sortDesc_sorted_gt hnd) hvs hlen
  have hkeep : keepNotInFrom 0 (sortDesc ns) l.list = keepNotInFrom 0 ns l.list :=
    keepNotInFrom_congr (fun m => (sortDesc_perm ns).mem_iff) l.list 0
  rw [TodoList.delete_items, hloop]
  exact ⟨by rw [List.nil_append], hkeep, sortDesc_sorted_gt hnd, sortDesc_perm ns⟩

/-- Witness for C8: deleting the batch [1, 3] from the 3-item document
removes the items named c then a (descending original index) and leaves
exactly the item named b. -/
theorem C8_witness :
    ((TodoList.mk "t" (list_from_str "- [ ] a\n- [ ] b\n- [ ] c")).delete_items [1, 3]).2 =
      .ok ((sortDesc [1, 3]).map
        (fun m => todoItemAt (list_from_str "- [ ] a\n- [ ] b\n- [ ] c") (m - 1))) ∧
    ((TodoList.mk "t" (list_from_str "- [ ] a\n- [ ] b\n- [ ] c")).delete_items [1, 3]).1.list =
      keepNotInFrom 0 [1, 3] (list_from_str "- [ ] a\n- [ ] b\n- [ ] c") ∧
    List.Sorted (fun a b => b < a) (sortDesc [1, 3]) ∧
    List.Perm (sortDesc [1, 3]) [1, 3] :=
  C8_delete_batch_deterministic (TodoList.mk "t" (list_from_str "- [ ] a\n- [ ] b\n- [ ] c"))
    [1, 3] (by decide) (by decide) (by decide)

/-- Counterexample for C8 as frozen: on the 2-item document, the batch
[1, 1] consists only of valid indices (index 1 is valid), yet the
operation empties the whole list instead of leaving the unaddressed item
b, and the removed items [a, b] are not ordered by descending original
index. -/
theorem C8_counterexample :
    ((TodoList.mk "t" (list_from_str "- [ ] a\n- [ ] b")).delete_items [1, 1]).1.list = [] ∧
    ((TodoList.mk "t" (list_from_str "- [ ] a\n- [ ] b")).delete_items [1, 1]).1.list ≠
      [.TodoItem { name := "b", description := none, state := .Initial }] ∧
    ((TodoList.mk "t" (list_from_str "- [ ] a\n- [ ] b")).delete_items [1, 1]).2 =
      .ok [{ name := "a", description := none, state := .Initial },
           { name := "b", description := none, state := .Initial }] := by
  refine ⟨by decide, by decide, by decide⟩

/-- Claim C4, amended: index resolution is NOT computed once against the
pre-mutation list: each occurrence is resolved against the current,
partially mutated list.  In particular a duplicated index `n` addressing
an item, with another item directly after it, removes TWO distinct items:
the pre-mutation items at positions `n` and `n + 1` (1-based), as in
delete([2,2]) on a 3-item list removing the 2nd and the 3rd item.  (The
claim as frozen - one repeated index never removes two distinct items -
is refuted by `C4_counterexample`.) -/
theorem C4_duplicate_index_removes_shifted_item (l : TodoList) (n : Nat)
    (hus : l.list.length ≤ USIZE)
    (h1 : 0 < n) (h2 : n + 1 ≤ l.list.length)
    (ht1 : isTodoItemAt l.list (n - 1) = true)
    (ht2 : isTodoItemAt l.list n = true) :
    (l.delete_items [n, n]).2 =
      .ok [todoItemAt l.list (n - 1), todoItemAt l.list n] ∧
    (l.delete_items [n, n]).1.list = (l.list.eraseIdx (n - 1)).eraseIdx (n - 1) := by
  have hs : sortDesc [n, n] = [n, n] := by
    rw [sortDesc, sortDesc, sortDesc, insertDesc, insertDesc, if_pos (le_refl n)]
  have hget1 : l.get_item n = .ok (todoItemAt l.list (n - 1)) :=
    get_item_of_valid h1 (by omega) (isTodoItemAt_spec ht1)
  have hlen1 : (l.list.eraseIdx (n - 1)).length = l.list.length - 1 := by
    rw [List.length_eraseIdx, if_pos (by omega)]
  have hget2 : (TodoList.mk l.name (l.list.eraseIdx (n - 1))).get_item n =
      .ok (todoItemAt l.list n) := by
    apply get_item_of_valid h1 (by omega)
    show (l.list.eraseIdx (n - 1))[n - 1]? = _
    rw [List.getElem?_eraseIdx_of_ge l.list (n - 1) (n - 1) (le_refl _)]
    have hn : n - 1 + 1 = n := by omega
    rw [hn]
    exact isTodoItemAt_spec ht2
  rw [TodoList.delete_items, hs, deleteLoop, if_pos ⟨h1, by omega⟩, hget1]
  dsimp only
  rw [deleteLoop, if_pos ⟨h1, by rw [hlen1]; omega⟩, hget2]
  dsimp only
  rw [deleteLoop]
  exact ⟨rfl, rfl⟩

/-- Witness for C4 (amended): delete([2,2]) on the 3-item document
removes the items originally at positions 2 and 3. -/
theorem C4_witness :
    ((TodoList.mk "t" (list_from_str "- [ ] a\n- [ ] b\n- [ ] c")).delete_items [2, 2]).2 =
      .ok [todoItemAt (list_from_str "- [ ] a\n- [ ] b\n- [ ] c") 1,
           todoItemAt (list_from_str "- [ ] a\n- [ ] b\n- [ ] c") 2] ∧
    ((TodoList.mk "t" (list_from_str "- [ ] a\n- [ ] b\n- [ ] c")).delete_items [2, 2]).1.list =
      (((list_from_str "- [ ] a\n- [ ] b\n- [ ] c").eraseIdx 1).eraseIdx 1) :=
  C4_duplicate_index_removes_shifted_item
    (TodoList.mk "t" (list_from_str "- [ ] a\n- [ ] b\n- [ ] c")) 2
    (by decide) (by decide) (by decide) (by decide) (by decide)

/-- Counterexample for C4 as frozen: delete([2,2]) on the 3-item document
removes TWO DISTINCT items (b and c) for the one repeated index 2, because
the second occurrence is resolved against the already mutated list. -/
theorem C4_counterexample :
    ((TodoList.mk "t" (list_from_str "- [ ] a\n- [ ] b\n- [ ] c")).delete_items [2, 2]).2 =
      .ok [{ name := "b", description := none, state := .Initial },
           { name := "c", description := none, state := .Initial }] ∧
    ((TodoList.mk "t" (list_from_str "- [ ] a\n- [ ] b\n- [ ] c")).delete_items [2, 2]).1.list =
      [.TodoItem { name := "a", description := none, state := .Initial }] ∧
    ({ name := "b", description := none, state := .Initial } : TodoItem) ≠
      { name := "c", description := none, state := .Initial } := by
  refine ⟨by decide, by decide, by decide⟩

/-- Claim C2, amended: a batch containing an invalid index (0 or beyond
the element count) always makes `delete_items` and the batch mark-done
return an `InvalidItemNumber` error (never success), but the in-memory
list is NOT always left unmutated: indices are processed in descending
order and the valid ones processed before the first invalid one are
already applied; the list is guaranteed unmutated only when a maximal
index of the batch is itself invalid.  (The handlers in src/main.rs write
the file only after the whole batch succeeds, so the persisted file does
stay unmutated; the all-or-nothing property for the in-memory list as
frozen is refuted by `C2_counterexample`.) -/
theorem C2_invalid_batch_errors_but_may_mutate (l : TodoList) (ns : List Nat)
    (hb : ∀ n ∈ ns, n < USIZE) (hlen : l.list.length < USIZE)
    (hinv : ∃ n ∈ ns, n = 0 ∨ l.list.length < n) :
    (∃ k, (l.delete_items ns).2 = .error (.InvalidItemNumber k)) ∧
    (∃ k, (markDoneBatch l ns).2 = .error (.InvalidItemNumber k)) ∧
    (∀ n0 ∈ ns, (∀ m ∈ ns, m ≤ n0) → (n0 = 0 ∨ l.list.length < n0) →
      l.delete_items ns = (l, .error (.InvalidItemNumber n0))) := by
  obtain ⟨n, hn, hninv⟩ := hinv
  refine ⟨?_, ?_, ?_⟩
  · rcases deleteLoop_error_form (sortDesc ns) l [] with ⟨r, hok⟩ | ⟨k, herr⟩
    · exfalso
      have hv := deleteLoop_ok_valid (sortDesc ns) l [] r hok n
        ((sortDesc_perm ns).mem_iff.mpr hn)
      rcases hninv with rfl | hbig
      · exact lt_irrefl 0 hv.1
      · have := hv.2
        omega
    · exact ⟨k, herr⟩
  · rcases markDoneBatch_error_form ns l with ⟨r, hok⟩ | ⟨k, herr⟩
    · exfalso
      have hv := markDoneBatch_ok_valid ns l r hb hlen hok n hn
      rcases hninv with rfl | hbig
      · exact lt_irrefl 0 hv.1
      · have := hv.2
        omega
    · exact ⟨k, herr⟩
  · intro n0 hn0 hmax hinv0
    exact delete_items_max_invalid hn0 hmax hinv0

/-- Witness for C2 (amended): the batch [2] on a 1-item list errors with
`InvalidItemNumber` in both batch operations and, since 2 is the maximal
index, the list is unmutated. -/
theorem C2_witness :
    (∃ k, ((TodoList.mk "t" (list_from_str "- [ ] a")).delete_items [2]).2 =
      .error (.InvalidItemNumber k)) ∧
    (∃ k, (markDoneBatch (TodoList.mk "t" (list_from_str "- [ ] a")) [2]).2 =
      .error (.InvalidItemNumber k)) ∧
    (∀ n0 ∈ [2], (∀ m ∈ [2], m ≤ n0) →
      (n0 = 0 ∨ (TodoList.mk "t" (list_from_str "- [ ] a")).list.length < n0) →
      (TodoList.mk "t" (list_from_str "- [ ] a")).delete_items [2] =
        (TodoList.mk "t" (list_from_str "- [ ] a"), .error (.InvalidItemNumber n0))) :=
  C2_invalid_batch_errors_but_may_mutate (TodoList.mk "t" (list_from_str "- [ ] a"))
    [2] (by decide) (by decide) ⟨2, by decide, by decide⟩

/-- Counterexample for C2 as frozen: on the 2-item document, the batch
[2, 0] contains the invalid index 0, and `delete_items` does return
`InvalidItemNumber 0` - but the list is NOT left unmutated: the valid
index 2 is processed first (descending order) and item b is removed
before the error aborts the loop. -/
theorem C2_counterexample :
    ((TodoList.mk "t" (list_from_str "- [ ] a\n- [ ] b")).delete_items [2, 0]).2 =
      .error (.InvalidItemNumber 0) ∧
    ((TodoList.mk "t" (list_from_str "- [ ] a\n- [ ] b")).delete_items [2, 0]).1.list =
      [.TodoItem { name := "a", description := none, state := .Initial }] ∧
    ((TodoList.mk "t" (list_from_str "- [ ] a\n- [ ] b")).delete_items [2, 0]).1.list ≠
      (TodoList.mk "t" (list_from_str "- [ ] a\n- [ ] b")).list := by
  refine ⟨by decide, by decide, by decide⟩

/-- Claim C3, amended: round-trip fidelity holds for every document
composed of well-formed checklist lines that contain no carriage return:
if every line of `ls` parses as a `TodoItem` and contains neither a line
feed nor a carriage return, then serializing the freshly parsed document
reproduces it byte for byte, and a trailing newline is normalized away.
(For lines with an embedded carriage return directly before the newline
the round trip drops the carriage return - `str::lines` treats "\r\n" as
one line ending - which refutes the byte-for-byte claim as frozen; see
`C3_counterexample`.) -/
theorem C3_roundtrip_without_cr (nm : String) (ls : List String)
    (h : ∀ l ∈ ls, (todoItemFromStr l).isOk = true ∧ '\n' ∉ l.data ∧ '\r' ∉ l.data) :
    (TodoList.mk nm (list_from_str (joinNl ls))).as_markdown = joinNl ls ∧
    (ls ≠ [] →
      (TodoList.mk nm (list_from_str (joinNl ls ++ "\n"))).as_markdown = joinNl ls) := by
  have h2 : ∀ l ∈ ls, l.data ≠ [] ∧ '\n' ∉ l.data ∧ '\r' ∉ l.data := by
    intro l hl
    obtain ⟨hok, hn, hr⟩ := h l hl
    exact ⟨data_ne_nil_of_isOk hok, hn, hr⟩
  exact as_markdown_list_from_str ls h2 nm

/-- Witness for C3 (amended): a concrete two-line document of well-formed
checklist lines round-trips exactly, with and without trailing newline. -/
theorem C3_witness :
    (TodoList.mk "t" (list_from_str (joinNl ["- [ ] a", "- [x] b"]))).as_markdown =
      joinNl ["- [ ] a", "- [x] b"] ∧
    (["- [ ] a", "- [x] b"] ≠ ([] : List String) →
      (TodoList.mk "t" (list_from_str (joinNl ["- [ ] a", "- [x] b"] ++ "\n"))).as_markdown =
        joinNl ["- [ ] a", "- [x] b"]) :=
  C3_roundtrip_without_cr "t" ["- [ ] a", "- [x] b"] (by decide)

/-- Counterexample for C3 as frozen: the document "- [ ] a\r\n- [x] b" is
composed of two well-formed checklist lines ("- [ ] a\r" parses as a
`TodoItem` whose name ends in the carriage return), yet serializing the
freshly parsed document yields "- [ ] a\n- [x] b", which differs from the
original even after appending or removing a trailing newline. -/
theorem C3_counterexample :
    (todoItemFromStr "- [ ] a\r").isOk = true ∧
    (todoItemFromStr "- [x] b").isOk = true ∧
    joinNl ["- [ ] a\r", "- [x] b"] = "- [ ] a\r\n- [x] b" ∧
    (TodoList.mk "t" (list_from_str "- [ ] a\r\n- [x] b")).as_markdown =
      "- [ ] a\n- [x] b" ∧
    (TodoList.mk "t" (list_from_str "- [ ] a\r\n- [x] b")).as_markdown ≠
      "- [ ] a\r\n- [x] b" ∧
    (TodoList.mk "t" (list_from_str "- [ ] a\r\n- [x] b")).as_markdown ++ "\n" ≠
      "- [ ] a\r\n- [x] b" ∧
    (TodoList.mk "t" (list_from_str "- [ ] a\r\n- [x] b")).as_markdown ≠
      "- [ ] a\r\n- [x] b" ++ "\n" := by
  refine ⟨by decide, by decide, by decide, by decide, by decide, by decide, by decide⟩

/-- Claim C6, amended: parsing "- [z] title" fails with the cause that
the state mark is unsupported (the message carries the offending mark
"z"); parsing "- [ ]" fails with the cause that the item ended
unexpectedly where the space after the closing bracket was expected - not
with the empty-title cause, which is produced only once the separating
space is present, as for "- [ ] ".  (The frozen claim attributes the
empty-title cause to "- [ ]"; refuted by `C6_counterexample`.) -/
theorem C6_parse_error_taxonomy :
    todoItemFromStr "- [z] title" = .error (.ParseError .unsupportedState "z") ∧
    todoItemFromStr "- [ ]" = .error (.ParseError .endedAfterBracket "- [ ]") ∧
    todoItemFromStr "- [ ] " = .error (.ParseError .emptyName "- [ ] ") := by
  refine ⟨by decide, by decide, by decide⟩

/-- Counterexample for C6 as frozen: "- [ ]" does not fail with the
empty-title cause; it fails with the ended-unexpectedly cause, a distinct
member of the error taxonomy. -/
theorem C6_counterexample :
    todoItemFromStr "- [ ]" = .error (.ParseError .endedAfterBracket "- [ ]") ∧
    ParseCause.endedAfterBracket ≠ ParseCause.emptyName := by
  refine ⟨by decide, by decide⟩

/-- Reduction of the parser on a line with a well-formed checkbox prefix:
only literal emptiness of the remaining title is rejected, and otherwise
the mark decides the state. -/
theorem todoItemFromChars_wellformed (mark : Char) (s : List Char) :
    todoItemFromChars ('-' :: ' ' :: '[' :: mark :: ']' :: ' ' :: s) =
      (if s = [] then
        .error (.ParseError .emptyName (String.mk ('-' :: ' ' :: '[' :: mark :: ']' :: ' ' :: s)))
       else
        match todoItemStateFromStr (String.mk [mark]) with
        | .ok st => .ok { name := String.mk s, description := none, state := st }
        | .error e => .error e) := by
  simp only [todoItemFromChars, if_true]

/-- Claim C7, amended: for a line whose checkbox prefix, mark, bracket
and separator are well-formed, the parse fails with the empty-name cause
exactly when the remaining title is LITERALLY empty; no trimming is
applied, so a title consisting only of whitespace (for example the line
"- [ ]  ", whose title is the single space " ") parses successfully as a
valid item.  (The frozen claim - failure whenever the title is empty
after trimming - is refuted by `C7_counterexample`.) -/
theorem C7_only_literally_empty_title_fails (mark : Char) (nm : String) :
    (nm = "" → todoItemFromChars ('-' :: ' ' :: '[' :: mark :: ']' :: ' ' :: nm.data) =
      .error (.ParseError .emptyName
        (String.mk ('-' :: ' ' :: '[' :: mark :: ']' :: ' ' :: nm.data)))) ∧
    (nm ≠ "" → mark = ' ' →
      todoItemFromChars ('-' :: ' ' :: '[' :: mark :: ']' :: ' ' :: nm.data) =
        .ok { name := nm, description := none, state := .Initial }) ∧
    (nm ≠ "" → mark = 'x' →
      todoItemFromChars ('-' :: ' ' :: '[' :: mark :: ']' :: ' ' :: nm.data) =
        .ok { name := nm, description := none, state := .Done }) := by
  have hd : nm ≠ "" → nm.data ≠ [] := by
    intro hne hc
    exact hne (String.ext hc)
  refine ⟨?_, ?_, ?_⟩
  · intro hnm
    subst hnm
    rw [todoItemFromChars_wellformed, if_pos rfl]
  · intro hne hm
    subst hm
    rw [todoItemFromChars_wellformed, if_neg (hd hne)]
    have hst : todoItemStateFromStr (String.mk [' ']) = .ok .Initial := by decide
    rw [hst, mk_data]
  · intro hne hm
    subst hm
    rw [todoItemFromChars_wellformed, if_neg (hd hne)]
    have hst : todoItemStateFromStr (String.mk ['x']) = .ok .Done := by decide
    rw [hst, mk_data]

/-- Witness for C7 (amended): the line "- [ ]  " (title is one space)
parses successfully as an initial item named " ". -/
theorem C7_witness :
    todoItemFromChars ('-' :: ' ' :: '[' :: ' ' :: ']' :: ' ' :: (" " : String).data) =
      .ok { name := " ", description := none, state := .Initial } :=
  (C7_only_literally_empty_title_fails ' ' " ").2.1 (by decide) rfl

/-- Counterexample for C7 as frozen: the line "- [ ]  " has a title that
is empty after trimming (it is all whitespace), yet parsing succeeds with
the whitespace title " " instead of failing. -/
theorem C7_counterexample :
    todoItemFromStr "- [ ]  " =
      .ok { name := " ", description := none, state := .Initial } ∧
    (" " : String).data.all Char.isWhitespace = true := by
  refine ⟨by decide, by decide⟩

/-- Claim C9: tag rendering.  The first half of the claim holds: in
"buy milk #grocery" the token grocery is wrapped by `render_tag` in the
tag styling, visually distinguished from the surrounding text.  The
second half is where the code defies the claim: rendering
"look at # 3" produces "look at  3" - the literal sharp sign is DROPPED,
not rendered: `color_tags` splits the text at every sharp sign and the
branch for a piece that starts with whitespace returns the piece without
restoring the separator it consumed. -/
theorem C9_sharp_before_whitespace_is_dropped :
    color_tags "buy milk #grocery" = "buy milk " ++ render_tag "grocery" ∧
    color_tags "look at # 3" = "look at  3" ∧
    ¬ ('#' ∈ (color_tags "look at # 3").data) := by
  refine ⟨by decide, by decide, by decide⟩

end TodoRs
